import Mathlib

/-!
Verification of the employer repository (Go): shallow embedding of the
employee data model, the repository layer (employee_repository.go), the
service layer, the HTTP error classification (isNotFoundError) and the
store schema constraints (traits/database/database.go), together with
proofs about the search, validation and error-handling claims.
-/

namespace Employer

/-- Employee record, mirroring `domain.Employee` (internal/domain/model.go):
ID, Name, Phone, City.  Ids are modelled as `Nat` (SERIAL assigns positive
integers). -/
structure Employee where
  id : Nat
  name : String
  phone : String
  city : String
deriving DecidableEq, Repr

/-- The employees table: the rows currently in the store. -/
abbrev Store := List Employee

/-- ASCII whitespace recognised by the model of Go's `strings.TrimSpace`. -/
def isSpaceCh (c : Char) : Bool :=
  c == ' ' || c == '\t' || c == '\n' || c == '\r' || c == '\x0b' || c == '\x0c'

/-- Model of Go's `strings.TrimSpace` on the character list of a string. -/
def trimCh (s : List Char) : List Char :=
  ((s.dropWhile isSpaceCh).reverse.dropWhile isSpaceCh).reverse

/-- Model of SQL `LOWER` (basic-latin case folding, `Char.toLower`). -/
def lower (s : List Char) : List Char := s.map Char.toLower

/-- All suffixes of a character list, longest first. -/
def tailsCh : List Char → List (List Char)
  | [] => [[]]
  | c :: s => (c :: s) :: tailsCh s

/-- PostgreSQL `LIKE` pattern matching: first argument is the pattern,
second the string; backslash is the default escape character — `\c`
matches the character `c` literally (including `\%`, `\_` and `\\`) —
`%` matches any (possibly empty) sequence, `_` any single character,
anything else matches itself; the pattern must cover the whole string.
A pattern ending in a bare escape is an error in PostgreSQL; the
patterns built by `SearchEmployees` always end in `%` (possibly escaped
into a literal), so that case is unreachable here and modelled as a
non-match. -/
def likeMatch : List Char → List Char → Bool
  | [], s => s.isEmpty
  | p :: ps, s =>
    if p == '\\' then
      match ps, s with
      | [], _ => false
      | _ :: _, [] => false
      | e :: ps', c :: s' => (e == c) && likeMatch ps' s'
    else if p == '%' then (tailsCh s).any (fun t => likeMatch ps t)
    else
      match s with
      | [] => false
      | c :: s' => (p == '_' || p == c) && likeMatch ps s'

/-- The pattern `searchPattern = "%" + query + "%"` built by
`SearchEmployees` (employee_repository.go line 120). -/
def subPat (q : List Char) : List Char := '%' :: (q ++ ['%'])

/-- The pattern `exactSearchPattern = query + "%"` built by
`SearchEmployees` (employee_repository.go line 121). -/
def startsPat (q : List Char) : List Char := q ++ ['%']

/-- One `LOWER(field) LIKE LOWER(pattern)` test of the search SQL. -/
def fieldLike (pat : List Char) (field : String) : Bool :=
  likeMatch (lower pat) (lower field.data)

/-- The `WHERE` clause of the search SQL (employee_repository.go lines
107-109): the row is kept when name, phone or city matches
`%query%` case-insensitively. -/
def rowMatches (q : List Char) (e : Employee) : Bool :=
  fieldLike (subPat q) e.name || fieldLike (subPat q) e.phone ||
    fieldLike (subPat q) e.city

/-- The `CASE` expression of the search SQL (employee_repository.go lines
111-116): rank 1 when the name matches `query%`, else 2 for phone, else 3
for city, else 4. -/
def rowTier (q : List Char) (e : Employee) : Nat :=
  if fieldLike (startsPat q) e.name then 1
  else if fieldLike (startsPat q) e.phone then 2
  else if fieldLike (startsPat q) e.city then 3
  else 4

/-- Lexicographic (code-point) order on character lists, modelling the SQL
`name ASC` comparison. -/
def strLe : List Char → List Char → Bool
  | [], _ => true
  | _ :: _, [] => false
  | c :: a, d :: b => if c.toNat = d.toNat then strLe a b else decide (c.toNat < d.toNat)

/-- The complete `ORDER BY` key comparison of the search SQL: by `CASE`
tier first, then by name ascending. -/
def searchOrdB (q : List Char) (a b : Employee) : Bool :=
  if rowTier q a < rowTier q b then true
  else if rowTier q a = rowTier q b then strLe a.name.data b.name.data
  else false

/-- The `ORDER BY` comparison as a relation, for sorting. -/
@[reducible] def searchRel (q : List Char) (a b : Employee) : Prop :=
  searchOrdB q a b = true

instance searchRelDec (q : List Char) : DecidableRel (searchRel q) :=
  fun a b => inferInstanceAs (Decidable (searchOrdB q a b = true))

/-- `SearchEmployees` (employee_repository.go lines 95-153): trim the
query; if empty, return no rows without querying the store; otherwise
return the rows matching `%query%` on name, phone or city, ordered by the
`CASE` tier then name ascending, capped at 100 rows (`LIMIT 100`). -/
def SearchEmployees (store : Store) (searchQuery : String) : List Employee :=
  let q := trimCh searchQuery.data
  if q.isEmpty then []
  else (List.insertionSort (searchRel q) (store.filter (rowMatches q))).take 100

/-! ## Error model

The Go code has three error shapes reaching the handlers: the service's
`ValidationError{Field, Message}`, the repository's
`NotFoundError{Entity, ID, Data}`, and errors produced by
`fmt.Errorf("context: %w", err)` wrapping a database error.  The database
error is either the driver's uniqueness-violation error (the `employees`
table declares `phone VARCHAR(50) NOT NULL UNIQUE`, database.go line 82)
or any other storage fault. -/

/-- A storage-layer error as produced by the database driver. -/
inductive DbError where
  | uniqueViolation
  | fault (msg : String)
deriving DecidableEq, Repr

/-- Driver error message; the uniqueness message is the one lib/pq emits
for the `employees_phone_key` constraint. -/
def dbErrMessage : DbError → String
  | .uniqueViolation => "pq: duplicate key value violates unique constraint \"employees_phone_key\""
  | .fault m => m

/-- `repository.NotFoundError` (employee_repository.go lines 326-330). -/
structure NFData where
  entity : String
  id : Nat
  data : Option String
deriving DecidableEq, Repr

/-- `NotFoundError.Error()` (employee_repository.go lines 332-337). -/
def nfMessage (nf : NFData) : String :=
  if nf.id ≠ 0 then nf.entity ++ " с ID " ++ toString nf.id ++ " не найден"
  else nf.entity ++ " не найден: " ++ (match nf.data with | none => "<nil>" | some s => s)

/-- An error surfaced by the service layer to the handlers. -/
inductive SvcError where
  | validation (field : String) (msg : String)
  | notFound (nf : NFData)
  | wrapped (ctx : String) (cause : DbError)
deriving DecidableEq, Repr

/-- `Error()` of each error shape: `ValidationError.Error()` returns the
message; wrapping by `fmt.Errorf("ctx: %w", err)` prepends the context. -/
def errMessage : SvcError → String
  | .validation _ m => m
  | .notFound nf => nfMessage nf
  | .wrapped ctx d => ctx ++ ": " ++ dbErrMessage d

/-- Does the result hold a `NotFoundError`? -/
def exceptIsNotFound {α : Type} : Except SvcError α → Bool
  | .error (.notFound _) => true
  | _ => false

/-- Is the error a store uniqueness violation (error chain contains the
driver's unique-constraint error, recoverable by `errors.As`)? -/
def isConstraintViolation : SvcError → Bool
  | .wrapped _ .uniqueViolation => true
  | _ => false

/-! ## Repository operations

The store is passed explicitly; `fault : Option String` injects an
environmental statement failure (connection loss etc.), `none` meaning
the statement executes against the store. -/

/-- The `INSERT ... RETURNING id` statement against the store: the schema
rejects a duplicate phone (UNIQUE constraint); otherwise the row is added
with the next serial id. -/
def dbInsert (store : Store) (nextId : Nat) (e : Employee) :
    Except DbError (Store × Nat) :=
  if store.any (fun r => r.phone == e.phone) then .error .uniqueViolation
  else .ok (store ++ [⟨nextId, e.name, e.phone, e.city⟩], nextId + 1)

/-- `Create` (employee_repository.go lines 26-40): run the insert; wrap
any error as `создание сотрудника: %w`; on success the employee carries
the returned id. -/
def repoCreate (fault : Option String) (store : Store) (nextId : Nat)
    (e : Employee) : Except SvcError (Store × Nat × Employee) :=
  match fault with
  | some m => .error (.wrapped "создание сотрудника" (.fault m))
  | none =>
    match dbInsert store nextId e with
    | .error d => .error (.wrapped "создание сотрудника" d)
    | .ok (s', n') => .ok (s', n', ⟨nextId, e.name, e.phone, e.city⟩)

/-- `Update` (employee_repository.go lines 156-181): the UPDATE statement
errors on an environmental fault or when the updated row would duplicate
another row's phone (UNIQUE constraint); these are wrapped as
`обновление сотрудника: %w`.  Otherwise, zero affected rows yield
`NotFoundError{employee, id}` and a match replaces name/phone/city. -/
def repoUpdate (fault : Option String) (store : Store) (e : Employee) :
    Except SvcError Store :=
  match fault with
  | some m => .error (.wrapped "обновление сотрудника" (.fault m))
  | none =>
    if store.any (fun r => r.id == e.id) then
      if store.any (fun r => r.id != e.id && r.phone == e.phone) then
        .error (.wrapped "обновление сотрудника" .uniqueViolation)
      else
        .ok (store.map (fun r =>
          if r.id == e.id then ⟨r.id, e.name, e.phone, e.city⟩ else r))
    else .error (.notFound ⟨"employee", e.id, none⟩)

/-- `Delete` (employee_repository.go lines 184-206): an environmental
fault is wrapped as `удаление сотрудника: %w`; zero affected rows yield
`NotFoundError{employee, id}`; otherwise the matching rows are removed. -/
def repoDelete (fault : Option String) (store : Store) (id : Nat) :
    Except SvcError Store :=
  match fault with
  | some m => .error (.wrapped "удаление сотрудника" (.fault m))
  | none =>
    if store.any (fun r => r.id == id) then
      .ok (store.filter (fun r => r.id != id))
    else .error (.notFound ⟨"employee", id, none⟩)

/-! ## Service layer (src/unnamed/part_004, `employeeService`) -/

/-- `validateEmployee` (part_004 lines 67-79): name, then phone, then
city must be non-empty; stops at the first violation. -/
def validateEmployee (e : Employee) : Option SvcError :=
  if e.name == "" then some (.validation "name" "имя обязательно")
  else if e.phone == "" then some (.validation "phone" "телефон обязателен")
  else if e.city == "" then some (.validation "city" "город обязателен")
  else none

/-- `CreateEmployee` (part_004 lines 26-35): validate, then delegate to
the repository `Create`, returning its result unchanged. -/
def svcCreateEmployee (fault : Option String) (store : Store) (nextId : Nat)
    (e : Employee) : Except SvcError (Store × Nat × Employee) :=
  match validateEmployee e with
  | some err => .error err
  | none => repoCreate fault store nextId e

/-- `UpdateEmployee` (part_004 lines 49-58): validate, then delegate to
the repository `Update`. -/
def svcUpdateEmployee (fault : Option String) (store : Store) (e : Employee) :
    Except SvcError Store :=
  match validateEmployee e with
  | some err => .error err
  | none => repoUpdate fault store e

/-- Modelled from the spec: the service-layer search implementation
(`employeeService.SearchEmployees`) is not present under src — only the
`EmployeeService` interface, its handler callers and its tests are.  Per
the spec it "validates query length constraints BEFORE delegating: fails
with ValidationError if, after trimming whitespace, the query is empty,
shorter than 2 characters, or longer than 100 characters. Only a query of
length 2-100 (trimmed) is forwarded to Record Access search." -/
def svcSearchEmployees (store : Store) (q : String) :
    Except SvcError (List Employee) :=
  let t := trimCh q.data
  if t.length < 2 || 100 < t.length then
    .error (.validation "query" "поисковый запрос должен содержать от 2 до 100 символов")
  else .ok (SearchEmployees store q)

/-! ## HTTP handler error classification (src/unnamed/part_005) -/

/-- Character-list version of `strings.HasPrefix`: does `s` start with
`q`? -/
def startsWithCh : List Char → List Char → Bool
  | _, [] => true
  | [], _ :: _ => false
  | c :: s, d :: q => c == d && startsWithCh s q

/-- Character-list version of `strings.Contains`: does `s` contain `q`
as a contiguous substring? -/
def containsCh (s q : List Char) : Bool :=
  (tailsCh s).any (fun t => startsWithCh t q)

/-- `isNotFoundError` (part_005 lines 238-243): lowercase the message and
look for any of the three substrings. -/
def isNotFoundError (msg : String) : Bool :=
  let m := lower msg.data
  containsCh m "не найден".data || containsCh m "not found".data ||
    containsCh m "notfound".data

/-- Status chosen by `GetEmployee`'s handler on a service error
(part_005 lines 79-86): 404 when `isNotFoundError`, else 500. -/
def getErrStatus (e : SvcError) : Nat :=
  if isNotFoundError (errMessage e) then 404 else 500

/-- Status chosen by `DeleteEmployee`'s handler on a service error
(part_005 lines 180-187): 404 when `isNotFoundError`, else 500. -/
def deleteErrStatus (e : SvcError) : Nat :=
  if isNotFoundError (errMessage e) then 404 else 500

/-- Status chosen by `UpdateEmployee`'s handler on a service error
(part_005 lines 146-156): 400 on a `ValidationError`, else 404 when
`isNotFoundError`, else 500. -/
def updateErrStatus (e : SvcError) : Nat :=
  match e with
  | .validation _ _ => 400
  | _ => if isNotFoundError (errMessage e) then 404 else 500

/-! ## Reachable store states -/

/-- Store states reachable through the repository mutation operations,
starting from the empty table with the serial counter at 1. -/
inductive Reachable : Store → Nat → Prop where
  | init : Reachable [] 1
  | create (f : Option String) (e : Employee) (s : Store) (n : Nat)
      (s' : Store) (n' : Nat) (emp : Employee) :
      Reachable s n → repoCreate f s n e = .ok (s', n', emp) → Reachable s' n'
  | update (f : Option String) (e : Employee) (s : Store) (n : Nat)
      (s' : Store) :
      Reachable s n → repoUpdate f s e = .ok s' → Reachable s' n
  | delete (f : Option String) (i : Nat) (s : Store) (n : Nat) (s' : Store) :
      Reachable s n → repoDelete f s i = .ok s' → Reachable s' n

/-! ## Spec-side definitions (used to state the claims' requirements) -/

/-- Wildcard-free query: no SQL LIKE metacharacter (`%` or `_`) and no
escape character (`\`). -/
def wildcardFree (q : List Char) : Bool :=
  q.all (fun c => !(c == '%' || c == '_' || c == '\\'))

/-- The spec's matching requirement: the query, compared
case-insensitively, occurs as a substring of name, phone or city. -/
def substrMatch (q : List Char) (e : Employee) : Bool :=
  containsCh (lower e.name.data) (lower q) ||
    containsCh (lower e.phone.data) (lower q) ||
    containsCh (lower e.city.data) (lower q)

/-- The spec's rank tiers: name starts-with first, then phone, then city,
then remaining substring matches (case-insensitive). -/
def specRank (q : List Char) (e : Employee) : Nat :=
  if startsWithCh (lower e.name.data) (lower q) then 1
  else if startsWithCh (lower e.phone.data) (lower q) then 2
  else if startsWithCh (lower e.city.data) (lower q) then 3
  else 4

/-- The spec's result ordering: by rank tier, then alphabetically by name
ascending. -/
def specOrderRel (q : List Char) (a b : Employee) : Prop :=
  specRank q a < specRank q b ∨
    (specRank q a = specRank q b ∧ strLe a.name.data b.name.data = true)

instance specOrderRelDec (q : List Char) : DecidableRel (specOrderRel q) :=
  fun a b => inferInstanceAs (Decidable
    (specRank q a < specRank q b ∨
      (specRank q a = specRank q b ∧ strLe a.name.data b.name.data = true)))

/-! ## Lemmas about LIKE matching -/

theorem boolExt {a b : Bool} (h : a = true ↔ b = true) : a = b := by
  cases a <;> cases b <;> simp_all

theorem startsWithCh_nil (s : List Char) : startsWithCh s [] = true := by
  cases s <;> rfl

theorem tailsCh_any_isEmpty (s : List Char) :
    (tailsCh s).any (fun t => t.isEmpty) = true := by
  induction s with
  | nil => rfl
  | cons c s ih => simp [tailsCh, List.any_cons, ih]

theorem wildcardFree_cons {c : Char} {q : List Char}
    (h : wildcardFree (c :: q) = true) :
    (c == '%') = false ∧ (c == '_') = false ∧ (c == '\\') = false ∧
      wildcardFree q = true := by
  simp only [wildcardFree, List.all_cons, Bool.and_eq_true, Bool.not_eq_true',
    Bool.or_eq_false_iff] at h
  exact ⟨h.1.1.1, h.1.1.2, h.1.2, h.2⟩

theorem likeMatch_pct (ps s : List Char) :
    likeMatch ('%' :: ps) s = (tailsCh s).any (fun t => likeMatch ps t) := by
  rw [likeMatch.eq_def]
  simp

theorem likeMatch_lit_nil {c : Char} {ps : List Char}
    (hb : (c == '\\') = false) (hp : (c == '%') = false) :
    likeMatch (c :: ps) [] = false := by
  rw [likeMatch.eq_def]
  simp [hb, hp]

theorem likeMatch_lit_cons {c : Char} {ps : List Char} {d : Char}
    {s : List Char} (hb : (c == '\\') = false) (hp : (c == '%') = false) :
    likeMatch (c :: ps) (d :: s) = ((c == '_' || c == d) && likeMatch ps s) := by
  rw [likeMatch.eq_def]
  simp [hb, hp]

/-- A wildcard-free pattern followed by `%` matches exactly the strings
that start with the pattern. -/
theorem likeMatch_startsPat {q : List Char} (hq : wildcardFree q = true) :
    ∀ s : List Char, likeMatch (q ++ ['%']) s = startsWithCh s q := by
  induction q with
  | nil =>
    intro s
    simp only [List.nil_append, startsWithCh_nil s]
    rw [likeMatch_pct]
    exact tailsCh_any_isEmpty s
  | cons c q ih =>
    intro s
    obtain ⟨hp, hu, hb, hrest⟩ := wildcardFree_cons hq
    cases s with
    | nil =>
      rw [List.cons_append, likeMatch_lit_nil hb hp]
      rfl
    | cons d s =>
      rw [List.cons_append, likeMatch_lit_cons hb hp, hu, Bool.false_or,
        ih hrest s]
      show (c == d && startsWithCh s q) = startsWithCh (d :: s) (c :: q)
      rw [show startsWithCh (d :: s) (c :: q) = (d == c && startsWithCh s q) from rfl,
        Bool.beq_comm]

theorem containsCh_eq_any (s q : List Char) :
    containsCh s q = (tailsCh s).any (fun t => startsWithCh t q) := rfl

/-- `%pattern%` with a wildcard-free core matches exactly the strings
containing the core as a substring. -/
theorem likeMatch_subPat {q : List Char} (hq : wildcardFree q = true)
    (s : List Char) : likeMatch ('%' :: (q ++ ['%'])) s = containsCh s q := by
  rw [likeMatch_pct, containsCh_eq_any]
  exact congrArg (tailsCh s).any (funext fun t => likeMatch_startsPat hq t)

/-- Case folding never produces a LIKE metacharacter or the escape
character from an ordinary character. -/
theorem toLower_wildcard {c : Char}
    (h : (Char.toLower c == '%' || Char.toLower c == '_' || Char.toLower c == '\\') = true) :
    (c == '%' || c == '_' || c == '\\') = true := by
  rw [Char.toLower] at h
  split at h
  · next hc =>
    exfalso
    obtain ⟨h1, h2⟩ := hc
    set n := c.toNat with hn
    have h3 : 97 ≤ n + 32 := by omega
    have h4 : n + 32 ≤ 122 := by omega
    set m := n + 32 with hm
    clear_value m
    interval_cases m <;> simp_all
  · exact h

theorem wildcardFree_lower {q : List Char} (h : wildcardFree q = true) :
    wildcardFree (lower q) = true := by
  simp only [wildcardFree, lower, List.all_map, List.all_eq_true] at h ⊢
  intro c hc
  have hq := h c hc
  simp only [Bool.not_eq_true', Bool.or_eq_false_iff] at hq
  have hw : (Char.toLower c == '%' || Char.toLower c == '_' || Char.toLower c == '\\') = false := by
    cases hb : (Char.toLower c == '%' || Char.toLower c == '_' || Char.toLower c == '\\') with
    | false => rfl
    | true =>
      have hcw := toLower_wildcard hb
      rw [hq.1.1, hq.1.2, hq.2] at hcw
      exact absurd hcw (by decide)
  simp only [Function.comp_apply, Bool.not_eq_true', Bool.or_eq_false_iff]
  obtain ⟨hab, hcc⟩ := Bool.or_eq_false_iff.mp hw
  obtain ⟨ha, hb2⟩ := Bool.or_eq_false_iff.mp hab
  exact ⟨⟨ha, hb2⟩, hcc⟩

theorem lower_append (a b : List Char) : lower (a ++ b) = lower a ++ lower b :=
  List.map_append _ a b

theorem lower_startsPat (q : List Char) :
    lower (startsPat q) = lower q ++ ['%'] := by
  simp [startsPat, lower_append, lower]

theorem lower_subPat (q : List Char) :
    lower (subPat q) = '%' :: (lower q ++ ['%']) := by
  simp [subPat, lower, lower_append]

/-- For wildcard-free queries the WHERE clause test is exactly
case-insensitive substring containment. -/
theorem rowMatches_eq_substrMatch {q : List Char} (hq : wildcardFree q = true)
    (e : Employee) : rowMatches q e = substrMatch q e := by
  have hl := wildcardFree_lower hq
  simp only [rowMatches, substrMatch, fieldLike, lower_subPat,
    likeMatch_subPat hl]

/-- For wildcard-free queries the CASE tier is exactly the spec's
starts-with rank. -/
theorem rowTier_eq_specRank {q : List Char} (hq : wildcardFree q = true)
    (e : Employee) : rowTier q e = specRank q e := by
  have hl := wildcardFree_lower hq
  simp only [rowTier, specRank, fieldLike, lower_startsPat,
    likeMatch_startsPat hl]

/-! ## The ORDER BY comparison is a total preorder -/

theorem strLe_total : ∀ a b : List Char, strLe a b = true ∨ strLe b a = true := by
  intro a
  induction a with
  | nil => intro b; left; rfl
  | cons c a ih =>
    intro b
    cases b with
    | nil => right; rfl
    | cons d b =>
      simp only [strLe]
      rcases Nat.lt_trichotomy c.toNat d.toNat with h | h | h
      · left; rw [if_neg (by omega), decide_eq_true h]
      · rw [if_pos h, if_pos h.symm]; exact ih b
      · right; rw [if_neg (by omega), decide_eq_true h]

theorem strLe_trans : ∀ a b c : List Char,
    strLe a b = true → strLe b c = true → strLe a c = true := by
  intro a
  induction a with
  | nil => intro b c _ _; rfl
  | cons x a ih =>
    intro b c hab hbc
    cases b with
    | nil => exact absurd hab (by simp [strLe])
    | cons y b =>
      cases c with
      | nil => exact absurd hbc (by simp [strLe])
      | cons z c =>
        simp only [strLe] at hab hbc ⊢
        by_cases hxy : x.toNat = y.toNat <;> by_cases hyz : y.toNat = z.toNat
        · rw [if_pos hxy] at hab
          rw [if_pos hyz] at hbc
          rw [if_pos (hxy.trans hyz)]
          exact ih b c hab hbc
        · rw [if_neg hyz] at hbc
          rw [if_neg (by omega : ¬ x.toNat = z.toNat)]
          simp only [decide_eq_true_eq] at hbc ⊢
          omega
        · rw [if_neg hxy] at hab
          rw [if_neg (by omega : ¬ x.toNat = z.toNat)]
          simp only [decide_eq_true_eq] at hab ⊢
          omega
        · rw [if_neg hxy] at hab
          rw [if_neg hyz] at hbc
          simp only [decide_eq_true_eq] at hab hbc
          rw [if_neg (by omega : ¬ x.toNat = z.toNat)]
          simp only [decide_eq_true_eq]
          omega

instance searchRelTotal (q : List Char) : IsTotal Employee (searchRel q) := by
  constructor
  intro a b
  simp only [searchRel, searchOrdB]
  rcases Nat.lt_trichotomy (rowTier q a) (rowTier q b) with h | h | h
  · left; rw [if_pos h]
  · rw [if_neg (by omega), if_pos h, if_neg (by omega), if_pos h.symm]
    exact strLe_total a.name.data b.name.data
  · right; rw [if_pos h]

instance searchRelTrans (q : List Char) : IsTrans Employee (searchRel q) := by
  constructor
  intro a b c hab hbc
  simp only [searchRel, searchOrdB] at hab hbc ⊢
  by_cases h1 : rowTier q a < rowTier q b
  · by_cases h2 : rowTier q b < rowTier q c
    · rw [if_pos (by omega)]
    · by_cases h2' : rowTier q b = rowTier q c
      · rw [if_pos (by omega)]
      · rw [if_neg h2, if_neg h2'] at hbc; exact absurd hbc (by simp)
  · by_cases h1' : rowTier q a = rowTier q b
    · by_cases h2 : rowTier q b < rowTier q c
      · rw [if_pos (by omega)]
      · by_cases h2' : rowTier q b = rowTier q c
        · rw [if_neg h1, if_pos h1'] at hab
          rw [if_neg h2, if_pos h2'] at hbc
          rw [if_neg (by omega), if_pos (by omega)]
          exact strLe_trans _ _ _ hab hbc
        · rw [if_neg h2, if_neg h2'] at hbc; exact absurd hbc (by simp)
    · rw [if_neg h1, if_neg h1'] at hab; exact absurd hab (by simp)

/-! ## Substring containment closure lemmas -/

theorem startsWithCh_append_right {s q : List Char}
    (h : startsWithCh s q = true) (b : List Char) :
    startsWithCh (s ++ b) q = true := by
  induction q generalizing s with
  | nil => exact startsWithCh_nil _
  | cons d q ih =>
    cases s with
    | nil => exact absurd h (by simp [startsWithCh])
    | cons c s =>
      simp only [startsWithCh, Bool.and_eq_true] at h
      simp only [List.cons_append, startsWithCh, Bool.and_eq_true, h.1,
        true_and]
      exact ih h.2

theorem startsWithCh_self (q r : List Char) : startsWithCh (q ++ r) q = true := by
  induction q with
  | nil => exact startsWithCh_nil _
  | cons c q ih => simp [startsWithCh, ih]

theorem containsCh_of_startsWithCh {s q : List Char}
    (h : startsWithCh s q = true) : containsCh s q = true := by
  cases s with
  | nil =>
    cases q with
    | nil => rfl
    | cons d q => exact absurd h (by simp [startsWithCh])
  | cons c s =>
    simp only [containsCh, tailsCh, List.any_cons, Bool.or_eq_true]
    exact Or.inl h

theorem containsCh_append_left {b q : List Char}
    (h : containsCh b q = true) (a : List Char) :
    containsCh (a ++ b) q = true := by
  induction a with
  | nil => exact h
  | cons c a ih =>
    simp only [List.cons_append, containsCh, tailsCh, List.any_cons,
      Bool.or_eq_true]
    exact Or.inr ih

theorem containsCh_append_right {a q : List Char}
    (h : containsCh a q = true) (b : List Char) :
    containsCh (a ++ b) q = true := by
  simp only [containsCh, List.any_eq_true] at h
  obtain ⟨t, ht, hs⟩ := h
  have hsuf : ∃ u, u ++ t = a := by
    clear hs
    induction a with
    | nil => simp only [tailsCh, List.mem_singleton] at ht; exact ⟨[], by simp [ht]⟩
    | cons c a ih =>
      simp only [tailsCh, List.mem_cons] at ht
      rcases ht with h | h
      · exact ⟨[], by simp [h]⟩
      · obtain ⟨u, hu⟩ := ih h
        exact ⟨c :: u, by simp [hu]⟩
  obtain ⟨u, hu⟩ := hsuf
  have : containsCh (t ++ b) q = true :=
    containsCh_of_startsWithCh (startsWithCh_append_right hs b)
  have h2 := containsCh_append_left this u
  rwa [← List.append_assoc, hu] at h2

theorem strData_append (a b : String) : (a ++ b).data = a.data ++ b.data := rfl

/-! ## Structure of the search result -/

theorem searchRel_imp_specOrderRel {q : List Char}
    (hw : wildcardFree q = true) {a b : Employee}
    (h : searchRel q a b) : specOrderRel q a b := by
  simp only [searchRel, searchOrdB] at h
  rw [specOrderRel, ← rowTier_eq_specRank hw a, ← rowTier_eq_specRank hw b]
  by_cases h1 : rowTier q a < rowTier q b
  · exact Or.inl h1
  · by_cases h2 : rowTier q a = rowTier q b
    · rw [if_neg h1, if_pos h2] at h
      exact Or.inr ⟨h2, h⟩
    · rw [if_neg h1, if_neg h2] at h
      exact absurd h (by simp)

theorem searchEmployees_sorted (store : Store) (q : String) :
    List.Pairwise (searchRel (trimCh q.data)) (SearchEmployees store q) := by
  unfold SearchEmployees
  by_cases h : (trimCh q.data).isEmpty = true
  · simp [h]
  · rw [if_neg h]
    exact List.Pairwise.sublist (List.take_sublist _ _)
      (List.sorted_insertionSort _ _)

theorem searchEmployees_eq_of_ne {store : Store} {q : String}
    (hne : trimCh q.data ≠ []) :
    SearchEmployees store q =
      (List.insertionSort (searchRel (trimCh q.data))
        (store.filter (rowMatches (trimCh q.data)))).take 100 := by
  unfold SearchEmployees
  rw [if_neg (by simp [hne])]

/-! ## Claim theorems: search (C1, C2, C7, C8) -/

/-- Claim C1 (corrected), counterexample: the claim as stated fails when
the query contains a SQL LIKE metacharacter.  Searching `"x_z"` against
employees `{name "xyzq"}` and `{name "bb", phone "x_z1"}` returns the
first employee first (its name matches the LIKE pattern `x_z%`, `_`
treated as a wildcard, tier 1), yet under the spec's starts-with reading
it ranks 4 (its name does not start with `x_z`, the query occurs nowhere
as a literal substring) while the second employee's phone literally
starts with `x_z` (tier 2), so the result is not ordered by the spec's
rank tiers. -/
theorem searchRanking_counterexample :
    trimCh "x_z".data ≠ [] ∧
    ¬ List.Pairwise (specOrderRel (trimCh "x_z".data))
      (SearchEmployees [⟨1, "xyzq", "9", "c"⟩, ⟨2, "bb", "x_z1", "d"⟩] "x_z") := by
  refine ⟨by decide, ?_⟩
  intro h
  have he : SearchEmployees [⟨1, "xyzq", "9", "c"⟩, ⟨2, "bb", "x_z1", "d"⟩] "x_z"
      = [⟨1, "xyzq", "9", "c"⟩, ⟨2, "bb", "x_z1", "d"⟩] := by decide
  rw [he] at h
  have hrel := List.rel_of_pairwise_cons h (List.mem_singleton.mpr rfl)
  exact absurd hrel (by decide)

/-- Claim C1 (amended): for every store state and every query that is
non-empty after trimming and contains no SQL LIKE metacharacter (`%`,
`_`) and no escape character (`\`), the search result is ordered by rank tier — name starts-with
first, then phone starts-with, then city starts-with, then the remaining
substring matches — and within each tier alphabetically by name
ascending. -/
theorem searchRanking_ordered (store : Store) (q : String)
    (hw : wildcardFree (trimCh q.data) = true)
    (hne : trimCh q.data ≠ []) :
    List.Pairwise (specOrderRel (trimCh q.data)) (SearchEmployees store q) := by
  have := hne
  exact (searchEmployees_sorted store q).imp
    (fun h => searchRel_imp_specOrderRel hw h)

/-- Witness for `searchRanking_ordered` at a concrete store and query. -/
theorem searchRanking_ordered_witness :
    wildcardFree (trimCh "ann".data) = true ∧ trimCh "ann".data ≠ [] ∧
    List.Pairwise (specOrderRel (trimCh "ann".data))
      (SearchEmployees [⟨1, "Ann", "7771", "Almaty"⟩, ⟨2, "John Doe", "1", "Anntown"⟩] "ann") :=
  ⟨by decide, by decide,
    searchRanking_ordered [⟨1, "Ann", "7771", "Almaty"⟩, ⟨2, "John Doe", "1", "Anntown"⟩]
      "ann" (by decide) (by decide)⟩

/-- Claim C2 (corrected), counterexample: membership is decided by the
unescaped LIKE pattern, not by literal substring containment.  Searching
`"x_z"` returns the employee named `"xyz"` (the `_` matches `y`), yet
`"x_z"` does not occur as a substring of the employee's name, phone or
city; the match count is far below the 100-row cap. -/
theorem searchMembership_counterexample :
    trimCh "x_z".data ≠ [] ∧
    (([⟨1, "xyz", "9", "c"⟩] : Store).filter
        (substrMatch (trimCh "x_z".data))).length ≤ 100 ∧
    (⟨1, "xyz", "9", "c"⟩ : Employee) ∈ SearchEmployees [⟨1, "xyz", "9", "c"⟩] "x_z" ∧
    substrMatch (trimCh "x_z".data) ⟨1, "xyz", "9", "c"⟩ = false := by
  refine ⟨by decide, by decide, ?_, by decide⟩
  have he : SearchEmployees [⟨1, "xyz", "9", "c"⟩] "x_z" = [⟨1, "xyz", "9", "c"⟩] := by decide
  rw [he]
  exact List.mem_singleton.mpr rfl

/-- Claim C2 (amended): for every store state and every query that is
non-empty after trimming and contains no SQL LIKE metacharacter (`%`,
`_`) and no escape character (`\`), every
returned employee contains the query case-insensitively as a substring of
name, phone or city, and — whenever at most 100 employees match — an
employee is returned if and only if it is in the store and matches. -/
theorem searchMembership (store : Store) (q : String) (e : Employee)
    (hw : wildcardFree (trimCh q.data) = true)
    (hne : trimCh q.data ≠ []) :
    (e ∈ SearchEmployees store q → substrMatch (trimCh q.data) e = true) ∧
    ((store.filter (substrMatch (trimCh q.data))).length ≤ 100 →
      (e ∈ SearchEmployees store q ↔
        e ∈ store ∧ substrMatch (trimCh q.data) e = true)) := by
  have hfc : store.filter (rowMatches (trimCh q.data)) =
      store.filter (substrMatch (trimCh q.data)) :=
    List.filter_congr (fun x _ => rowMatches_eq_substrMatch hw x)
  rw [searchEmployees_eq_of_ne hne, hfc]
  constructor
  · intro hmem
    have h1 := List.take_subset 100 _ hmem
    rw [List.mem_insertionSort] at h1
    exact (List.mem_filter.mp h1).2
  · intro hlen
    have hlen' : (List.insertionSort (searchRel (trimCh q.data))
        (store.filter (substrMatch (trimCh q.data)))).length ≤ 100 := by
      rwa [List.length_insertionSort]
    rw [List.take_of_length_le hlen', List.mem_insertionSort, List.mem_filter]

/-- Witness for `searchMembership` at a concrete store, query and
employee. -/
theorem searchMembership_witness :
    wildcardFree (trimCh "john".data) = true ∧ trimCh "john".data ≠ [] ∧
    ((⟨1, "John Doe", "77", "Almaty"⟩ : Employee) ∈
        SearchEmployees [⟨1, "John Doe", "77", "Almaty"⟩] "john" →
      substrMatch (trimCh "john".data) ⟨1, "John Doe", "77", "Almaty"⟩ = true) ∧
    ((([⟨1, "John Doe", "77", "Almaty"⟩] : Store).filter
        (substrMatch (trimCh "john".data))).length ≤ 100 →
      ((⟨1, "John Doe", "77", "Almaty"⟩ : Employee) ∈
          SearchEmployees [⟨1, "John Doe", "77", "Almaty"⟩] "john" ↔
        (⟨1, "John Doe", "77", "Almaty"⟩ : Employee) ∈
            ([⟨1, "John Doe", "77", "Almaty"⟩] : Store) ∧
          substrMatch (trimCh "john".data) ⟨1, "John Doe", "77", "Almaty"⟩ = true)) :=
  ⟨by decide, by decide,
    (searchMembership [⟨1, "John Doe", "77", "Almaty"⟩] "john"
      ⟨1, "John Doe", "77", "Almaty"⟩ (by decide) (by decide)).1,
    (searchMembership [⟨1, "John Doe", "77", "Almaty"⟩] "john"
      ⟨1, "John Doe", "77", "Almaty"⟩ (by decide) (by decide)).2⟩

/-- Claim C7: for every store state and every query the search returns at
most 100 employees (`LIMIT 100`). -/
theorem searchCapped (store : Store) (q : String) :
    (SearchEmployees store q).length ≤ 100 := by
  unfold SearchEmployees
  by_cases h : (trimCh q.data).isEmpty = true
  · simp [h]
  · rw [if_neg h]
    exact List.length_take_le 100 _

/-- Claim C8: for every query that trims to the empty string the search
returns an empty result set (and no error); the store is never consulted
— the result is the same for every store state. -/
theorem searchEmptyQuery (store : Store) (q : String)
    (h : trimCh q.data = []) :
    SearchEmployees store q = [] ∧
    ∀ store' : Store, SearchEmployees store' q = SearchEmployees store q := by
  constructor
  · unfold SearchEmployees
    rw [if_pos (by simp [h])]
  · intro store'
    unfold SearchEmployees
    rw [if_pos (by simp [h]), if_pos (by simp [h])]

/-- Witness for `searchEmptyQuery` on a whitespace query and a non-empty
store. -/
theorem searchEmptyQuery_witness :
    trimCh "   ".data = [] ∧
    SearchEmployees [⟨1, "Ann", "7771", "Almaty"⟩] "   " = [] ∧
    ∀ store' : Store, SearchEmployees store' "   " =
      SearchEmployees [⟨1, "Ann", "7771", "Almaty"⟩] "   " :=
  ⟨by decide,
    (searchEmptyQuery [⟨1, "Ann", "7771", "Almaty"⟩] "   " (by decide)).1,
    (searchEmptyQuery [⟨1, "Ann", "7771", "Almaty"⟩] "   " (by decide)).2⟩

/-! ## Claim theorems: service validation and repository errors
(C3, C4, C5, C6) -/

/-- Claim C3 (spec-modelled): the service search fails with a
`ValidationError` exactly when the trimmed query is empty, shorter than
2 or longer than 100 characters, and otherwise forwards the query to the
repository search and returns its result. -/
theorem svcSearchValidates (store : Store) (q : String) :
    ((trimCh q.data).length < 2 ∨ 100 < (trimCh q.data).length →
      svcSearchEmployees store q = .error (.validation "query"
        "поисковый запрос должен содержать от 2 до 100 символов")) ∧
    (2 ≤ (trimCh q.data).length → (trimCh q.data).length ≤ 100 →
      svcSearchEmployees store q = .ok (SearchEmployees store q)) := by
  constructor
  · intro h
    unfold svcSearchEmployees
    rw [if_pos (by simp only [Bool.or_eq_true, decide_eq_true_eq]; omega)]
  · intro h1 h2
    unfold svcSearchEmployees
    rw [if_neg (by simp only [Bool.or_eq_true, decide_eq_true_eq]; omega)]

/-- Witness for `svcSearchValidates`: the empty query is rejected and a
2-character query is forwarded. -/
theorem svcSearchValidates_witness :
    ((trimCh "".data).length < 2 ∨ 100 < (trimCh "".data).length) ∧
    svcSearchEmployees [] "" = .error (.validation "query"
      "поисковый запрос должен содержать от 2 до 100 символов") ∧
    2 ≤ (trimCh "ab".data).length ∧ (trimCh "ab".data).length ≤ 100 ∧
    svcSearchEmployees [] "ab" = .ok (SearchEmployees [] "ab") :=
  ⟨Or.inl (by decide),
    (svcSearchValidates [] "").1 (Or.inl (by decide)),
    by decide, by decide,
    (svcSearchValidates [] "ab").2 (by decide) (by decide)⟩

/-- Claim C4: `CreateEmployee` validates name, then phone, then city,
failing with a `ValidationError` naming the first empty field; the
result of a failed validation is the same for every store, serial
counter and injected store fault — the repository is never consulted —
and with all three fields non-empty the call is exactly the repository
`Create`, its errors propagated unchanged. -/
theorem svcCreateValidates (fault : Option String) (store : Store)
    (nextId : Nat) (e : Employee) :
    (e.name = "" →
      svcCreateEmployee fault store nextId e =
        .error (.validation "name" "имя обязательно")) ∧
    (e.name ≠ "" → e.phone = "" →
      svcCreateEmployee fault store nextId e =
        .error (.validation "phone" "телефон обязателен")) ∧
    (e.name ≠ "" → e.phone ≠ "" → e.city = "" →
      svcCreateEmployee fault store nextId e =
        .error (.validation "city" "город обязателен")) ∧
    (e.name ≠ "" → e.phone ≠ "" → e.city ≠ "" →
      svcCreateEmployee fault store nextId e = repoCreate fault store nextId e) := by
  refine ⟨fun h1 => ?_, fun h1 h2 => ?_, fun h1 h2 h3 => ?_, fun h1 h2 h3 => ?_⟩ <;>
    simp_all [svcCreateEmployee, validateEmployee]

/-- Witness for `svcCreateValidates`: each empty field is reported in
check order, and a fully valid employee is delegated to the repository. -/
theorem svcCreateValidates_witness :
    svcCreateEmployee none [] 1 ⟨0, "", "", ""⟩ =
      .error (.validation "name" "имя обязательно") ∧
    svcCreateEmployee none [] 1 ⟨0, "Ann", "", ""⟩ =
      .error (.validation "phone" "телефон обязателен") ∧
    svcCreateEmployee none [] 1 ⟨0, "Ann", "7771", ""⟩ =
      .error (.validation "city" "город обязателен") ∧
    svcCreateEmployee none [] 1 ⟨0, "Ann", "7771", "Almaty"⟩ =
      repoCreate none [] 1 ⟨0, "Ann", "7771", "Almaty"⟩ :=
  ⟨(svcCreateValidates none [] 1 ⟨0, "", "", ""⟩).1 rfl,
    (svcCreateValidates none [] 1 ⟨0, "Ann", "", ""⟩).2.1 (by decide) rfl,
    (svcCreateValidates none [] 1 ⟨0, "Ann", "7771", ""⟩).2.2.1
      (by decide) (by decide) rfl,
    (svcCreateValidates none [] 1 ⟨0, "Ann", "7771", "Almaty"⟩).2.2.2
      (by decide) (by decide) (by decide)⟩

/-- Claim C5: `Update` and `Delete` fail with
`NotFoundError{employee, id}` exactly when the statement succeeds but
affects zero rows (no row carries the id); an injected statement fault is
never classified as not-found; and after a successful delete a second
delete of the same id fails with `NotFoundError`. -/
theorem repoNotFoundOnZeroRows (store : Store) (e : Employee) (i : Nat) :
    (exceptIsNotFound (repoUpdate none store e) = true ↔
      ¬ ∃ r ∈ store, r.id = e.id) ∧
    (exceptIsNotFound (repoDelete none store i) = true ↔
      ¬ ∃ r ∈ store, r.id = i) ∧
    (∀ m : String, exceptIsNotFound (repoUpdate (some m) store e) = false ∧
      exceptIsNotFound (repoDelete (some m) store i) = false) ∧
    (∀ s' : Store, repoDelete none store i = .ok s' →
      repoDelete none s' i = .error (.notFound ⟨"employee", i, none⟩)) := by
  refine ⟨?_, ?_, fun m => ⟨rfl, rfl⟩, ?_⟩
  · unfold repoUpdate
    by_cases h : store.any (fun r => r.id == e.id) = true
    · rw [if_pos h]
      simp only [List.any_eq_true, beq_iff_eq] at h
      by_cases h2 : store.any (fun r => r.id != e.id && r.phone == e.phone) = true
      · rw [if_pos h2]; simp [exceptIsNotFound, h]
      · rw [if_neg h2]; simp [exceptIsNotFound, h]
    · rw [if_neg h]
      simp only [List.any_eq_true, beq_iff_eq] at h
      simp [exceptIsNotFound, h]
  · unfold repoDelete
    by_cases h : store.any (fun r => r.id == i) = true
    · rw [if_pos h]
      simp only [List.any_eq_true, beq_iff_eq] at h
      simp [exceptIsNotFound, h]
    · rw [if_neg h]
      simp only [List.any_eq_true, beq_iff_eq] at h
      simp [exceptIsNotFound, h]
  · intro s' hok
    unfold repoDelete at hok
    by_cases h : store.any (fun r => r.id == i) = true
    · rw [if_pos h] at hok
      have hs' : s' = store.filter (fun r => r.id != i) := by
        cases hok; rfl
      unfold repoDelete
      rw [if_neg ?_]
      · intro hc
        rw [List.any_eq_true] at hc
        obtain ⟨r, hr, hri⟩ := hc
        rw [hs', List.mem_filter] at hr
        simp only [bne_iff_ne, ne_eq, beq_iff_eq] at hr hri
        exact hr.2 hri
    · rw [if_neg h] at hok
      exact absurd hok (by simp)

/-- Witness for `repoNotFoundOnZeroRows`: deleting id 1 from a singleton
store succeeds and a second delete reports not-found; updating a missing
id reports not-found. -/
theorem repoNotFoundOnZeroRows_witness :
    (exceptIsNotFound (repoUpdate none [] ⟨5, "Ann", "7771", "Almaty"⟩) = true ↔
      ¬ ∃ r ∈ ([] : Store), r.id = (⟨5, "Ann", "7771", "Almaty"⟩ : Employee).id) ∧
    repoDelete none [⟨1, "Ann", "7771", "Almaty"⟩] 1 = .ok [] ∧
    repoDelete none [] 1 = .error (.notFound ⟨"employee", 1, none⟩) :=
  ⟨(repoNotFoundOnZeroRows [] ⟨5, "Ann", "7771", "Almaty"⟩ 0).1,
    rfl,
    (repoNotFoundOnZeroRows [⟨1, "Ann", "7771", "Almaty"⟩]
        ⟨0, "", "", ""⟩ 1).2.2.2 [] rfl⟩

/-- Claim C6: when the store already holds an employee with the same
phone, `Create` (with the statement executing) fails with the store's
uniqueness-violation error wrapped in the create context — a
`ConstraintViolation`, recognisable in the error chain — while every
injected storage fault yields an error that is not a constraint
violation. -/
theorem repoCreateDuplicatePhone (store : Store) (nextId : Nat) (e : Employee) :
    ((∃ r ∈ store, r.phone = e.phone) →
      repoCreate none store nextId e =
        .error (.wrapped "создание сотрудника" .uniqueViolation) ∧
      isConstraintViolation (.wrapped "создание сотрудника" .uniqueViolation) = true) ∧
    (∀ m err, repoCreate (some m) store nextId e = .error err →
      isConstraintViolation err = false) := by
  constructor
  · intro hdup
    have hany : store.any (fun r => r.phone == e.phone) = true := by
      rw [List.any_eq_true]
      obtain ⟨r, hr, hp⟩ := hdup
      exact ⟨r, hr, by simp [hp]⟩
    refine ⟨?_, rfl⟩
    unfold repoCreate dbInsert
    rw [if_pos hany]
  · intro m err herr
    unfold repoCreate at herr
    cases herr
    rfl

/-- Witness for `repoCreateDuplicatePhone` on a store already holding
phone `7771`. -/
theorem repoCreateDuplicatePhone_witness :
    (∃ r ∈ ([⟨1, "Ann", "7771", "Almaty"⟩] : Store),
      r.phone = (⟨0, "Bob", "7771", "Astana"⟩ : Employee).phone) ∧
    repoCreate none [⟨1, "Ann", "7771", "Almaty"⟩] 2 ⟨0, "Bob", "7771", "Astana"⟩ =
      .error (.wrapped "создание сотрудника" .uniqueViolation) ∧
    isConstraintViolation (.wrapped "создание сотрудника" .uniqueViolation) = true :=
  ⟨⟨⟨1, "Ann", "7771", "Almaty"⟩, List.mem_singleton.mpr rfl, rfl⟩,
    (repoCreateDuplicatePhone [⟨1, "Ann", "7771", "Almaty"⟩] 2
        ⟨0, "Bob", "7771", "Astana"⟩).1
      ⟨⟨1, "Ann", "7771", "Almaty"⟩, List.mem_singleton.mpr rfl, rfl⟩⟩

/-! ## Claim C9: store invariants -/

/-- The inductive invariant: phones and ids pairwise distinct, every id
positive and below the serial counter, and the counter at least 1. -/
def StoreInv (s : Store) (n : Nat) : Prop :=
  List.Pairwise (fun a b => a.phone ≠ b.phone ∧ a.id ≠ b.id) s ∧
    (∀ e ∈ s, 0 < e.id ∧ e.id < n) ∧ 1 ≤ n

theorem storeInv_create {f : Option String} {e : Employee} {s : Store}
    {n : Nat} {s' : Store} {n' : Nat} {emp : Employee}
    (hinv : StoreInv s n) (hok : repoCreate f s n e = .ok (s', n', emp)) :
    StoreInv s' n' := by
  obtain ⟨hpair, hbound, hn⟩ := hinv
  unfold repoCreate at hok
  cases f with
  | some m => exact absurd hok (by simp)
  | none =>
    unfold dbInsert at hok
    by_cases hdup : s.any (fun r => r.phone == e.phone) = true
    · rw [if_pos hdup] at hok
      exact absurd hok (by simp)
    · rw [if_neg hdup] at hok
      simp only [Except.ok.injEq, Prod.mk.injEq] at hok
      obtain ⟨hs', hn', _⟩ := hok
      simp only [List.any_eq_true, beq_iff_eq, not_exists, not_and] at hdup
      push_neg at hdup
      refine ⟨?_, ?_, by omega⟩
      · rw [← hs']
        rw [List.pairwise_append]
        refine ⟨hpair, List.pairwise_singleton _ _, ?_⟩
        intro a ha b hb
        rw [List.mem_singleton] at hb
        subst hb
        refine ⟨hdup a ha, ?_⟩
        have := (hbound a ha).2
        simp only [ne_eq]
        omega
      · intro x hx
        rw [← hs', List.mem_append] at hx
        rcases hx with hx | hx
        · have := hbound x hx
          omega
        · rw [List.mem_singleton] at hx
          subst hx
          simp only
          omega

theorem storeInv_update {f : Option String} {e : Employee} {s : Store}
    {n : Nat} {s' : Store}
    (hinv : StoreInv s n) (hok : repoUpdate f s e = .ok s') :
    StoreInv s' n := by
  obtain ⟨hpair, hbound, hn⟩ := hinv
  unfold repoUpdate at hok
  cases f with
  | some m => exact absurd hok (by simp)
  | none =>
    by_cases hex : s.any (fun r => r.id == e.id) = true
    · rw [if_pos hex] at hok
      by_cases hconf : s.any (fun r => r.id != e.id && r.phone == e.phone) = true
      · rw [if_pos hconf] at hok
        exact absurd hok (by simp)
      · rw [if_neg hconf] at hok
        simp only [Except.ok.injEq] at hok
        simp only [List.any_eq_true, Bool.and_eq_true, bne_iff_ne, ne_eq,
          beq_iff_eq, not_exists, not_and] at hconf
        push_neg at hconf
        refine ⟨?_, ?_, hn⟩
        · rw [← hok, List.pairwise_map]
          refine hpair.imp_of_mem ?_
          intro a b ha hb hab
          by_cases hae : a.id == e.id <;> by_cases hbe : b.id == e.id <;>
            simp only [hae, hbe, if_pos, if_neg, if_true, if_false]
          · rw [beq_iff_eq] at hae hbe
            exact absurd (hae.trans hbe.symm) hab.2
          · rw [beq_iff_eq] at hae
            simp only [Bool.not_eq_true, beq_eq_false_iff_ne, ne_eq] at hbe
            refine ⟨?_, by simpa [hae] using hab.2⟩
            simp only [ne_eq]
            intro hc
            exact (hconf b hb (by simp [hbe])) hc.symm
          · rw [beq_iff_eq] at hbe
            simp only [Bool.not_eq_true, beq_eq_false_iff_ne, ne_eq] at hae
            refine ⟨?_, by simpa [hbe] using hab.2⟩
            simp only [ne_eq]
            exact hconf a ha (by simp [hae])
          · exact hab
        · intro x hx
          rw [← hok, List.mem_map] at hx
          obtain ⟨a, ha, hax⟩ := hx
          have hb := hbound a ha
          by_cases hae : a.id == e.id <;> simp only [hae, if_true, if_false] at hax <;>
            rw [← hax] <;> simpa using hb
    · rw [if_neg hex] at hok
      exact absurd hok (by simp)

theorem storeInv_delete {f : Option String} {i : Nat} {s : Store}
    {n : Nat} {s' : Store}
    (hinv : StoreInv s n) (hok : repoDelete f s i = .ok s') :
    StoreInv s' n := by
  obtain ⟨hpair, hbound, hn⟩ := hinv
  unfold repoDelete at hok
  cases f with
  | some m => exact absurd hok (by simp)
  | none =>
    by_cases hex : s.any (fun r => r.id == i) = true
    · rw [if_pos hex] at hok
      simp only [Except.ok.injEq] at hok
      refine ⟨?_, ?_, hn⟩
      · rw [← hok]
        exact List.Pairwise.sublist (List.filter_sublist s) hpair
      · intro x hx
        rw [← hok, List.mem_filter] at hx
        exact hbound x hx.1
    · rw [if_neg hex] at hok
      exact absurd hok (by simp)

theorem storeInv_reachable {s : Store} {n : Nat} (h : Reachable s n) :
    StoreInv s n := by
  induction h with
  | init => exact ⟨List.Pairwise.nil, by simp, le_refl 1⟩
  | create f e s n s' n' emp _ hok ih => exact storeInv_create ih hok
  | update f e s n s' _ hok ih => exact storeInv_update ih hok
  | delete f i s n s' _ hok ih => exact storeInv_delete ih hok

/-- Claim C9: in every store state reachable through the repository
operations, phone numbers are pairwise distinct, ids are pairwise
distinct, and every assigned id is positive.  (Each operation either
preserves this or fails, leaving the store unchanged, which is what
`Reachable` records.) -/
theorem reachableInvariants (s : Store) (n : Nat) (h : Reachable s n) :
    List.Pairwise (fun a b => a.phone ≠ b.phone) s ∧
    List.Pairwise (fun a b => a.id ≠ b.id) s ∧
    ∀ e ∈ s, 0 < e.id := by
  obtain ⟨hpair, hbound, _⟩ := storeInv_reachable h
  exact ⟨hpair.imp (fun h => h.1), hpair.imp (fun h => h.2),
    fun e he => (hbound e he).1⟩

/-- Witness for `reachableInvariants` on the store reached by creating
two employees from the initial state. -/
theorem reachableInvariants_witness :
    List.Pairwise (fun a b => a.phone ≠ b.phone)
      ([⟨1, "Ann", "7771", "Almaty"⟩, ⟨2, "Bob", "5550", "Astana"⟩] : Store) ∧
    List.Pairwise (fun a b => a.id ≠ b.id)
      ([⟨1, "Ann", "7771", "Almaty"⟩, ⟨2, "Bob", "5550", "Astana"⟩] : Store) ∧
    ∀ e ∈ ([⟨1, "Ann", "7771", "Almaty"⟩, ⟨2, "Bob", "5550", "Astana"⟩] : Store),
      0 < e.id :=
  reachableInvariants _ 3
    (Reachable.create none ⟨0, "Bob", "5550", "Astana"⟩
      [⟨1, "Ann", "7771", "Almaty"⟩] 2 _ 3 _
      (Reachable.create none ⟨0, "Ann", "7771", "Almaty"⟩ [] 1 _ 2 _
        Reachable.init rfl)
      rfl)

/-! ## Claim C10: handler not-found classification -/

theorem lower_strData_append (a b : String) :
    lower (a ++ b).data = lower a.data ++ lower b.data := by
  rw [strData_append, lower_append]

theorem containsCh_substring_left {m : String} {q : List Char}
    (h : containsCh (lower m.data) q = true) (a b : String) :
    containsCh (lower (a ++ m ++ b).data) q = true := by
  rw [lower_strData_append, lower_strData_append]
  exact containsCh_append_right (containsCh_append_left h _) _

/-- Every `NotFoundError` message contains the substring `не найден`
(both `Error()` branches embed it verbatim, and case folding leaves
it unchanged). -/
theorem nfMessage_contains (nf : NFData) :
    containsCh (lower (nfMessage nf).data) "не найден".data = true := by
  unfold nfMessage
  by_cases h : nf.id ≠ 0
  · rw [if_pos h]
    have : nf.entity ++ " с ID " ++ toString nf.id ++ " не найден" =
        (nf.entity ++ " с ID " ++ toString nf.id) ++ " не найден" ++ "" := by
      simp
    rw [this]
    exact containsCh_substring_left (by decide) _ _
  · rw [if_neg h]
    have : nf.entity ++ " не найден: " ++
        (match nf.data with | none => "<nil>" | some s => s) =
        nf.entity ++ " не найден: " ++
          (match nf.data with | none => "<nil>" | some s => s) := rfl
    exact containsCh_substring_left (m := " не найден: ") (by decide) nf.entity _

/-- Claim C10: the get and delete handlers answer 404 exactly when the
lowercased error message contains `не найден`, `not found` or
`notfound`; the update handler does the same for every error its service
can produce (its validation messages never contain those substrings);
every `NotFoundError` is therefore mapped to 404; and a wrapped storage
fault whose message happens to contain `not found` is also mapped to
404 rather than 500. -/
theorem handlerNotFoundMapping :
    (∀ e : SvcError, getErrStatus e = 404 ↔
      (containsCh (lower (errMessage e).data) "не найден".data ||
        containsCh (lower (errMessage e).data) "not found".data ||
        containsCh (lower (errMessage e).data) "notfound".data) = true) ∧
    (∀ e : SvcError, deleteErrStatus e = 404 ↔
      (containsCh (lower (errMessage e).data) "не найден".data ||
        containsCh (lower (errMessage e).data) "not found".data ||
        containsCh (lower (errMessage e).data) "notfound".data) = true) ∧
    (∀ (f : Option String) (store : Store) (emp : Employee) (e : SvcError),
      svcUpdateEmployee f store emp = .error e →
      (updateErrStatus e = 404 ↔
        (containsCh (lower (errMessage e).data) "не найден".data ||
          containsCh (lower (errMessage e).data) "not found".data ||
          containsCh (lower (errMessage e).data) "notfound".data) = true)) ∧
    (∀ nf : NFData, getErrStatus (.notFound nf) = 404) ∧
    (∀ ctx m : String, containsCh (lower m.data) "not found".data = true →
      updateErrStatus (.wrapped ctx (.fault m)) = 404) := by
  have hstat : ∀ e : SvcError, (if isNotFoundError (errMessage e) then (404:Nat) else 500) = 404 ↔
      (containsCh (lower (errMessage e).data) "не найден".data ||
        containsCh (lower (errMessage e).data) "not found".data ||
        containsCh (lower (errMessage e).data) "notfound".data) = true := by
    intro e
    have hb : isNotFoundError (errMessage e) =
        (containsCh (lower (errMessage e).data) "не найден".data ||
          containsCh (lower (errMessage e).data) "not found".data ||
          containsCh (lower (errMessage e).data) "notfound".data) := rfl
    rw [hb]
    cases hB : (containsCh (lower (errMessage e).data) "не найден".data ||
        containsCh (lower (errMessage e).data) "not found".data ||
        containsCh (lower (errMessage e).data) "notfound".data) with
    | true => simp
    | false => decide
  refine ⟨hstat, hstat, ?_, ?_, ?_⟩
  · intro f store emp e herr
    cases e with
    | validation fld msg =>
      unfold svcUpdateEmployee validateEmployee at herr
      by_cases h1 : emp.name == ""
      · rw [if_pos h1] at herr
        simp only [Except.error.injEq] at herr
        rw [← herr]
        decide
      · rw [if_neg h1] at herr
        by_cases h2 : emp.phone == ""
        · rw [if_pos h2] at herr
          simp only [Except.error.injEq] at herr
          rw [← herr]
          decide
        · rw [if_neg h2] at herr
          by_cases h3 : emp.city == ""
          · rw [if_pos h3] at herr
            simp only [Except.error.injEq] at herr
            rw [← herr]
            decide
          · rw [if_neg h3] at herr
            unfold repoUpdate at herr
            cases f with
            | some m => simp at herr
            | none =>
              by_cases hex : store.any (fun r => r.id == emp.id) = true
              · rw [if_pos hex] at herr
                by_cases hconf : store.any (fun r => r.id != emp.id && r.phone == emp.phone) = true
                · rw [if_pos hconf] at herr; simp at herr
                · rw [if_neg hconf] at herr; simp at herr
              · rw [if_neg hex] at herr; simp at herr
    | notFound nf => exact hstat _
    | wrapped ctx d => exact hstat _
  · intro nf
    have hc := nfMessage_contains nf
    simp [getErrStatus, errMessage, isNotFoundError, hc]
  · intro ctx m h
    have hfull : containsCh (lower ((ctx ++ ": ") ++ m ++ "").data)
        "not found".data = true := containsCh_substring_left h (ctx ++ ": ") ""
    rw [String.append_empty] at hfull
    simp at hfull
    simp [updateErrStatus, errMessage, dbErrMessage, isNotFoundError, hfull]

/-- Witness for `handlerNotFoundMapping`: a `NotFoundError` observed by
the get handler, a validation error produced by the update service, and
a wrapped fault whose message contains `not found`. -/
theorem handlerNotFoundMapping_witness :
    (getErrStatus (.notFound ⟨"employee", 1, none⟩) = 404 ↔
      (containsCh (lower (errMessage (.notFound ⟨"employee", 1, none⟩)).data) "не найден".data ||
        containsCh (lower (errMessage (.notFound ⟨"employee", 1, none⟩)).data) "not found".data ||
        containsCh (lower (errMessage (.notFound ⟨"employee", 1, none⟩)).data) "notfound".data) = true) ∧
    (updateErrStatus (.validation "name" "имя обязательно") = 404 ↔
      (containsCh (lower (errMessage (.validation "name" "имя обязательно")).data) "не найден".data ||
        containsCh (lower (errMessage (.validation "name" "имя обязательно")).data) "not found".data ||
        containsCh (lower (errMessage (.validation "name" "имя обязательно")).data) "notfound".data) = true) ∧
    updateErrStatus (.wrapped "обновление сотрудника" (.fault "driver: not found")) = 404 :=
  ⟨handlerNotFoundMapping.1 (.notFound ⟨"employee", 1, none⟩),
    handlerNotFoundMapping.2.2.1 none [] ⟨0, "", "", ""⟩
      (.validation "name" "имя обязательно") rfl,
    handlerNotFoundMapping.2.2.2.2 "обновление сотрудника" "driver: not found"
      (by decide)⟩

end Employer
